import Mathlib

/-!
Verification development for the extractgqlts type-inference engine
(file internal/typer.go, the alternatives-builder version).

The Go source is shallowly embedded: every stateful method of `Typer`
becomes an explicit state-passing function on a `Typer` record, Go maps
become association lists (map iteration order is only ever observed
after sorting, so a deterministic list order is a faithful model), and
Go multiple returns become products.  Go `panic` paths (which abort the
program and never return) are modelled by benign junk values; every
property proved below concerns only executions in which the Go code
returns normally, and on those executions the embedding agrees with the
source step by step.

String comparison: Go `sort.Strings` sorts byte-wise over UTF-8, which
coincides with code-point lexicographic order, embedded here by
`strLe` / `sortStrings`.  The builtin `String` order of Lean is avoided
because its iterator-based implementation does not reduce in the kernel.
-/

namespace ExtractGQLTS

/-- Code-point lexicographic comparison of character lists, the order used
by Go byte-wise string sorting (UTF-8 preserves code-point order). -/
def listCharLe : List Char → List Char → Bool
  | [], _ => true
  | _ :: _, [] => false
  | a :: as, b :: bs =>
    if a.toNat < b.toNat then true
    else if b.toNat < a.toNat then false
    else listCharLe as bs

def strLe (a b : String) : Bool := listCharLe a.data b.data

/-- The sorting order as a decidable relation. -/
def strLeRel (a b : String) : Prop := strLe a b = true

instance : DecidableRel strLeRel :=
  fun a b => inferInstanceAs (Decidable (strLe a b = true))

/-- Model of Go sort.Strings: ascending sort.  Equal strings are identical,
so every correct sorting algorithm produces the same list; insertion sort is
used for its simple proofs. -/
def sortStrings (l : List String) : List String := List.insertionSort strLeRel l

/-- Model of Go strings.Contains with a single-character needle. -/
def containsChar (s : String) (c : Char) : Bool :=
  s.data.any (fun x => decide (x = c))

/-- Model of Go strings.HasSuffix. -/
def hasSuffixStr (s suffix : String) : Bool :=
  decide (suffix.data = s.data.drop (s.data.length - suffix.data.length))

def hexDigitChar (n : Nat) : Char :=
  if n < 10 then Char.ofNat (48 + n) else Char.ofNat (87 + n)

/-- One character of Go encoding/json string escaping (HTML escaping on, the
default for json.Marshal): quote and backslash escaped, newline, carriage
return and tab as two-character escapes, other control characters and the
HTML characters as lowercase \u sequences, U+2028 and U+2029 escaped. -/
def escapeJSONChar (c : Char) : String :=
  if c = '"' then "\\\""
  else if c = '\\' then "\\\\"
  else if c = '\n' then "\\n"
  else if c = '\r' then "\\r"
  else if c = '\t' then "\\t"
  else if c = '<' then "\\u003c"
  else if c = '>' then "\\u003e"
  else if c = '&' then "\\u0026"
  else if c.toNat < 32 then "\\u00" ++ String.mk [hexDigitChar (c.toNat / 16), hexDigitChar (c.toNat % 16)]
  else if c.toNat = 8232 then "\\u2028"
  else if c.toNat = 8233 then "\\u2029"
  else String.singleton c

/-- Model of StringToJSON (json.go): json.Marshal of a string value. -/
def StringToJSON (s : String) : String :=
  "\"" ++ String.join (s.data.map escapeJSONChar) ++ "\""

/-! Association lists model Go maps.  Keys are only ever iterated after
sorting in the source, so list order is unobservable in outputs. -/

def lookupA {α : Type} : List (String × α) → String → Option α
  | [], _ => none
  | (k, v) :: rest, key => if k = key then some v else lookupA rest key

def containsA {α : Type} (l : List (String × α)) (key : String) : Bool :=
  (lookupA l key).isSome

/-- Map assignment m[k] = v. -/
def upsertA {α : Type} : List (String × α) → String → α → List (String × α)
  | [], key, v => [(key, v)]
  | (k, w) :: rest, key, v =>
    if k = key then (key, v) :: rest else (k, w) :: upsertA rest key v

/-- In-place mutation of the value stored under an existing key; missing keys
are left alone (the corresponding Go code dereferences nil and aborts, so no
normally-returning execution reaches that case). -/
def updateA {α : Type} : List (String × α) → String → (α → α) → List (String × α)
  | [], _, _ => []
  | (k, v) :: rest, key, f =>
    if k = key then (k, f v) :: rest else (k, v) :: updateA rest key f

def keysA {α : Type} (l : List (String × α)) : List String := l.map Prod.fst

/-- Set insertion, modelling assignment of true into a map[string]bool. -/
def insertSet (l : List String) (s : String) : List String :=
  if l.contains s then l else l ++ [s]

def containsStr (l : List String) (s : String) : Bool := l.contains s

/-! The schema-side data model (the slice of gqlparser ast consumed by the
typer): type definitions, the schema registry, and type references. -/

inductive DefinitionKind where
  | object
  | interface
  | union
  | scalar
  | enum
  | inputObject
deriving DecidableEq, Repr

/-- A schema type definition (ast.Definition restricted to the fields the
typer reads: Name, Kind, Interfaces, union member Types). -/
structure Definition where
  name : String
  kind : DefinitionKind
  interfaces : List String
  types : List String
deriving DecidableEq, Repr

/-- The schema type registry plus root operation types (ast.Schema). -/
structure Schema where
  types : List (String × Definition)
  query : Option Definition
  mutation : Option Definition
  subscription : Option Definition
deriving DecidableEq

/-- A GraphQL type reference (ast.Type): NamedType, Elem, NonNull.  A list
wrapper has elem set; a named leaf has it empty. -/
inductive AstType where
  | mk (namedType : String) (elem : Option AstType) (nonNull : Bool)

def AstType.namedType : AstType → String
  | .mk n _ _ => n

def AstType.elem : AstType → Option AstType
  | .mk _ e _ => e

def AstType.nonNull : AstType → Bool
  | .mk _ _ nn => nn

/-- typeUnion: the set of concrete definitions a position may take, with its
canonical key. -/
structure TypeUnion where
  canonical : String
  definitions : List Definition
deriving DecidableEq, Repr

/-- canonicalizeUnion: sorted, pipe-joined canonical key; empty mapping to
the bottom type never. -/
def canonicalizeUnion (alternatives : List String) : String :=
  if alternatives.isEmpty then "never"
  else String.intercalate " | " (sortStrings alternatives)

/-- newTypeUnion: quote every member name and canonicalize. -/
def newTypeUnion (defs : List Definition) : TypeUnion :=
  { definitions := defs
    canonical := canonicalizeUnion (defs.map (fun d => StringToJSON d.name)) }

/-- intersectUnions: members of b whose names also occur in a. -/
def intersectUnions (a b : TypeUnion) : TypeUnion :=
  newTypeUnion (b.definitions.filter (fun d => a.definitions.any (fun x => decide (x.name = d.name))))

/-- objectBuilder: per concrete type, the selected aliases and applied
fragment names (Go map[string]bool used as sets). -/
structure ObjectBuilder where
  fields : List String
  fragments : List String
deriving DecidableEq, Repr

/-- alternativesBuilder: one frame per composite selection position. -/
structure AlternativesBuilder where
  self : TypeUnion
  fields : List (String × String)
  objects : List (String × ObjectBuilder)
  alternatives : List (String × TypeUnion)
deriving DecidableEq

/-- newAlternativesBuilder: the frame starts with the full union as its only
alternative and allocates an objectBuilder for every possible concrete type,
since self is only ever narrowed. -/
def newAlternativesBuilder (self : TypeUnion) : AlternativesBuilder :=
  { self := self
    fields := []
    objects := self.definitions.foldl
      (fun os d => upsertA os d.name { fields := [], fragments := [] }) []
    alternatives := [(self.canonical, self)] }

structure QueryType where
  query : String
  type : String
deriving DecidableEq, Repr

structure GeneratedTypes where
  scalars : List String
  queryMap : List QueryType
  declarations : List String
deriving DecidableEq, Repr

/-- The Typer state: schema, accumulated run output, the current frame and
the per-definition variable scope.  The Go nil builder pointer is modelled by
an inert builder value; it is saved and restored but never used before the
root frame replaces it. -/
structure Typer where
  schema : Schema
  generated : GeneratedTypes
  builder : AlternativesBuilder
  vars : List (String × String)
deriving DecidableEq

def nilBuilder : AlternativesBuilder :=
  { self := newTypeUnion [], fields := [], objects := [], alternatives := [] }

def getDefinition (t : Typer) (name : String) : Option Definition :=
  lookupA t.schema.types name

def junkDefinition : Definition :=
  { name := "", kind := .object, interfaces := [], types := [] }

/-- toConcreteUnion: object gives a singleton; interface gives every object
type of the schema implementing it; union gives its declared members.  The
remaining kinds abort in Go (programmer error); they are modelled by the
empty union. -/
def toConcreteUnion (t : Typer) (dd : Option Definition) : TypeUnion :=
  match dd with
  | none => newTypeUnion []
  | some d =>
    match d.kind with
    | .object => newTypeUnion [d]
    | .interface =>
      newTypeUnion ((t.schema.types.map Prod.snd).filter
        (fun c => decide (c.kind = DefinitionKind.object) && containsStr c.interfaces d.name))
    | .union =>
      newTypeUnion (d.types.map (fun n => (getDefinition t n).getD junkDefinition))
    | _ => newTypeUnion []

/-- narrow: intersect self with the target union, record the narrowed union
under its canonical key, and hand back the previous self for widen. -/
def narrow (t : Typer) (target : Option Definition) : TypeUnion × Typer :=
  let old := t.builder.self
  let u := intersectUnions old (toConcreteUnion t target)
  (old,
    { t with builder :=
        { t.builder with
          self := u
          alternatives := upsertA t.builder.alternatives u.canonical u } })

/-- widen: the restore action returned by narrow. -/
def widen (t : Typer) (old : TypeUnion) : Typer :=
  { t with builder := { t.builder with self := old } }

/-- The per-member field marking loop of visitField. -/
def markFields (objects : List (String × ObjectBuilder)) (defs : List Definition)
    (aliasName : String) : List (String × ObjectBuilder) :=
  defs.foldl
    (fun os d => updateA os d.name (fun ob => { ob with fields := insertSet ob.fields aliasName }))
    objects

/-- The per-member fragment marking loop of visitFragmentSpread. -/
def markFragments (objects : List (String × ObjectBuilder)) (defs : List Definition)
    (fragName : String) : List (String × ObjectBuilder) :=
  defs.foldl
    (fun os d => updateA os d.name (fun ob => { ob with fragments := insertSet ob.fragments fragName }))
    objects

/-- Checked companion of markFields: fails instead of skipping when a looked
up objectBuilder is missing, making "no nil map entry is dereferenced"
expressible as a refinement. -/
def markFieldsChecked (objects : List (String × ObjectBuilder)) (defs : List Definition)
    (aliasName : String) : Option (List (String × ObjectBuilder)) :=
  defs.foldlM
    (fun os d =>
      match lookupA os d.name with
      | none => none
      | some _ => some (updateA os d.name (fun ob => { ob with fields := insertSet ob.fields aliasName })))
    objects

/-- startObject: push a fresh frame for the concrete union of the given
type, returning the saved outer frame. -/
def startObject (t : Typer) (typ : Option Definition) : AlternativesBuilder × Typer :=
  (t.builder, { t with builder := newAlternativesBuilder (toConcreteUnion t typ) })

/-- writeObject: one union segment, a discriminant plus the sorted union of
the aliases and fragments marked on any member. -/
def writeObject (t : Typer) (types : TypeUnion) : String :=
  let acc := types.definitions.foldl
    (fun (acc : List String × List String) d =>
      match lookupA t.builder.objects d.name with
      | none => acc
      | some obj =>
        (obj.fields.foldl insertSet acc.1, obj.fragments.foldl insertSet acc.2))
    ([], [])
  let fieldAliases := sortStrings acc.1
  let fragmentNames := sortStrings acc.2
  "\x7b __typename: " ++ types.canonical ++ "; " ++
    String.join (fieldAliases.map (fun n => n ++ ": " ++ ((lookupA t.builder.fields n).getD "") ++ "; ")) ++
    "\x7d" ++
    String.join (fragmentNames.map (fun n => " & Fragment_" ++ n ++ "_Data"))

/-- buildDataType: all alternative segments sorted by canonical key, joined
as a union. -/
def buildDataType (t : Typer) : String :=
  if t.builder.alternatives.isEmpty then "/* buildDataType */ never"
  else
    let typenameUnions := sortStrings (keysA t.builder.alternatives)
    String.intercalate " | "
      (typenameUnions.map (fun key =>
        writeObject t ((lookupA t.builder.alternatives key).getD { canonical := "", definitions := [] })))

/-- endObject: the closure returned by startObject; emit the frame and pop
back to the saved one. -/
def endObject (t : Typer) (oldBuilder : AlternativesBuilder) : String × Typer :=
  (buildDataType t, { t with builder := oldBuilder })

/-- buildVariablesType: object literal of the sorted variable scope. -/
def buildVariablesType (t : Typer) : String :=
  let variableNames := sortStrings (keysA t.vars)
  "\x7b " ++
    String.join (variableNames.map (fun n => n ++ ": " ++ ((lookupA t.vars n).getD "") ++ "; ")) ++
    "\x7d"

/-- buildDocumentType: anonymous definitions are inlined; named ones hoist
a Data and a Variables declaration and reference them. -/
def buildDocumentType (t : Typer) (pfx name dataType : String) : String × Typer :=
  let variablesType := buildVariablesType t
  if name = "" then
    ("\x7b data: " ++ dataType ++ "; variables: " ++ variablesType ++ "; \x7d", t)
  else
    let t :=
      { t with generated :=
          { t.generated with declarations := t.generated.declarations ++
              ["export type " ++ pfx ++ "_" ++ name ++ "_Data = " ++ dataType ++ ";",
               "export type " ++ pfx ++ "_" ++ name ++ "_Variables = " ++ variablesType ++ ";"] } }
    ("\x7b data: " ++ (pfx ++ "_" ++ name ++ "_Data") ++ "; variables: " ++
      (pfx ++ "_" ++ name ++ "_Variables") ++ "; \x7d", t)

/-- startDefinition: fresh variable scope, fresh root frame. -/
def startDefinition (t : Typer) (objectType : Option Definition) : AlternativesBuilder × Typer :=
  startObject { t with vars := [] } objectType

/-- The end closure of startDefinition: pop the root frame, build the
document type, drop the variable scope. -/
def endDefinition (t : Typer) (oldBuilder : AlternativesBuilder) (opKind name : String) :
    String × Typer :=
  let e := endObject t oldBuilder
  let b := buildDocumentType e.2 opKind name e.1
  (b.1, { b.2 with vars := [] })

/-- The wrapping stack collected by the loop at the top of beginType,
outermost wrapper first. -/
def typeStack : AstType → List AstType
  | .mk n none nn => [AstType.mk n none nn]
  | .mk n (some e) nn => AstType.mk n (some e) nn :: typeStack e

def astLeafName : AstType → String
  | .mk n none _ => n
  | .mk _ (some e) _ => astLeafName e

/-- One iteration of the closing loop of the beginType end closure. -/
def beginTypeClose (acc : String × Bool) (w : AstType) : String × Bool :=
  let b := acc.1
  let needsParens := acc.2
  let b :=
    if needsParens then
      (if !w.nonNull || w.elem.isSome then b ++ ")" else b) ++
        (if w.elem.isSome then "[]" else "")
    else b
  if !w.nonNull then (b ++ " | null", true) else (b, needsParens)

/-- beginType: leaf name plus the wrapping closure that re-applies the
list/nullable wrappers around the rendered leaf or object text. -/
def beginType (typ : AstType) : String × (String → String) :=
  let stack := typeStack typ
  (astLeafName typ, fun unwrapped =>
    let needsParens := containsChar unwrapped ' '
    let opened := stack.foldl
      (fun b w => if (needsParens && !w.nonNull) || w.elem.isSome then b ++ "(" else b) ""
    (stack.reverse.foldl beginTypeClose (opened ++ unwrapped, needsParens)).1)

/-- visitType: map the builtin leaves to their target names; any other leaf
is emitted verbatim and recorded in the scalar registry. -/
def visitType (t : Typer) (typ : AstType) : String × Typer :=
  let p := beginType typ
  let leaf := p.1
  if leaf = "String" || leaf = "ID" then (p.2 "string", t)
  else if leaf = "Boolean" then (p.2 "boolean", t)
  else if leaf = "Int" || leaf = "Float" then (p.2 "number", t)
  else (p.2 leaf,
    { t with generated := { t.generated with scalars := t.generated.scalars ++ [leaf] } })

/-! The query-side AST (the slice of gqlparser ast the typer visits), with
field and fragment-spread nodes already carrying their bound definitions as
the validator leaves them. -/

structure VariableDefinition where
  variableName : String
  type : AstType

inductive Value where
  | varVal (variableDefinition : VariableDefinition)
  | constVal

structure Argument where
  value : Value

mutual

/-- ast.Selection: a field, a named fragment spread (carrying its bound
definition), or an inline fragment. -/
inductive Selection where
  | field (nodeAlias nodeName : String) (arguments : List Argument)
      (defType : AstType) (selectionSet : OptSelections)
  | fragmentSpread (name : String) (defTypeCondition : String)
      (defSelectionSet : Selections)
  | inlineFragment (typeCondition : String) (selectionSet : Selections)

/-- ast.SelectionSet as a fully mutual list, so the visitors are structural
recursions that compute in the kernel. -/
inductive Selections where
  | nil
  | cons (head : Selection) (tail : Selections)

/-- The nilable selection set of a field (nil meaning a leaf field). -/
inductive OptSelections where
  | noSel
  | sel (selections : Selections)

end

structure OperationDefinition where
  operation : String
  name : String
  variableDefinitions : List VariableDefinition
  selectionSet : Selections

structure FragmentDefinition where
  name : String
  typeCondition : String
  selectionSet : Selections

structure QueryDocument where
  operations : List OperationDefinition
  fragments : List FragmentDefinition

def visitVariableDefinition (t : Typer) (vd : VariableDefinition) : Typer :=
  if containsA t.vars vd.variableName then t
  else
    let r := visitType t vd.type
    { r.2 with vars := upsertA r.2.vars vd.variableName r.1 }

def visitVariableDefinitions (t : Typer) (vars : List VariableDefinition) : Typer :=
  vars.foldl visitVariableDefinition t

def visitValue (t : Typer) (v : Value) : Typer :=
  match v with
  | .varVal vd => visitVariableDefinition t vd
  | .constVal => t

def visitArgument (t : Typer) (arg : Argument) : Typer :=
  visitValue t arg.value

def visitArgumentList (t : Typer) (args : List Argument) : Typer :=
  args.foldl visitArgument t

mutual

/-- visitSelectionSet: visit the selections in order. -/
def visitSelectionSet (t : Typer) (selections : Selections) : Typer :=
  match selections with
  | .nil => t
  | .cons s rest => visitSelectionSet (visitSelection t s) rest

/-- visitSelection: dispatch on the node kind.  The fragment-spread and
inline-fragment bodies are written inline here so the mutual recursion stays
structural; the source-named methods visitFragmentSpread and
visitInlineFragment are defined below with definitionally equal bodies. -/
def visitSelection (t : Typer) (node : Selection) : Typer :=
  match node with
  | .field nodeAlias nodeName args defType ss => visitField t nodeAlias nodeName args defType ss
  | .fragmentSpread name tc ss =>
    let w := narrow t (getDefinition t tc)
    let t :=
      if name = "" then visitSelectionSet w.2 ss
      else { w.2 with builder := { w.2.builder with objects := markFragments w.2.builder.objects w.2.builder.self.definitions name } }
    widen t w.1
  | .inlineFragment tc ss =>
    let w := narrow t (getDefinition t tc)
    let t := visitSelectionSet w.2 ss
    widen t w.1

/-- visitField: leaf fields render their type; composite fields recurse in a
fresh frame and wrap its emitted shape through the beginType closure.  The
computed text lands in the frame fields map and the alias is marked on every
member currently in self. -/
def visitField (t : Typer) (nodeAlias nodeName : String) (args : List Argument)
    (defType : AstType) (ss : OptSelections) : Typer :=
  let t := visitArgumentList t args
  let aliasName := if nodeAlias = "" then nodeName else nodeAlias
  let ft : String × Typer :=
    match ss with
    | .noSel => visitType t defType
    | .sel sels =>
      let p := beginType defType
      let s := startObject t (getDefinition t p.1)
      let t2 := visitSelectionSet s.2 sels
      let e := endObject t2 s.1
      (p.2 e.1, e.2)
  let t := ft.2
  let t := { t with builder := { t.builder with fields := upsertA t.builder.fields aliasName ft.1 } }
  { t with builder := { t.builder with objects := markFields t.builder.objects t.builder.self.definitions aliasName } }

end

/-- visitFragmentSpread: narrow to the fragment condition; an unnamed spread
inlines the fragment selections, a named one only marks the fragment on the
members now in self; always widen on exit.  Definitionally equal to the
corresponding branch of visitSelection. -/
def visitFragmentSpread (t : Typer) (name tc : String) (ss : Selections) : Typer :=
  let w := narrow t (getDefinition t tc)
  let t :=
    if name = "" then visitSelectionSet w.2 ss
    else { w.2 with builder := { w.2.builder with objects := markFragments w.2.builder.objects w.2.builder.self.definitions name } }
  widen t w.1

/-- visitInlineFragment: narrow to the condition, visit the nested selections
directly in this frame, widen on exit.  Definitionally equal to the
corresponding branch of visitSelection. -/
def visitInlineFragment (t : Typer) (tc : String) (ss : Selections) : Typer :=
  let w := narrow t (getDefinition t tc)
  let t := visitSelectionSet w.2 ss
  widen t w.1

/-- visitOperationDefinition: pick the root object type from the operation
kind, run the definition, emit the document type.  An unknown operation kind
aborts in Go; it is modelled by an empty root. -/
def visitOperationDefinition (t : Typer) (od : OperationDefinition) : String × Typer :=
  let kindObj : String × Option Definition :=
    if od.operation = "query" then ("Query", t.schema.query)
    else if od.operation = "mutation" then ("Mutation", t.schema.mutation)
    else if od.operation = "subscription" then ("Subscription", t.schema.subscription)
    else ("", none)
  let s := startDefinition t kindObj.2
  let t := visitVariableDefinitions s.2 od.variableDefinitions
  let t := visitSelectionSet t od.selectionSet
  endDefinition t s.1 kindObj.1 od.name

/-- visitFragmentDefinition: the root type is the fragment type condition. -/
def visitFragmentDefinition (t : Typer) (fd : FragmentDefinition) : String × Typer :=
  let objectType := getDefinition t fd.typeCondition
  let s := startDefinition t objectType
  let t := visitSelectionSet s.2 fd.selectionSet
  endDefinition t s.1 "Fragment" fd.name

/-- visitDocument: the structural-arity switch.  Zero operations and zero
fragments, zero operations with more than one fragment, and more than one
operation are user-visible errors naming the count; exactly one operation is
accepted with any number of fragments (each fragment is visited first); zero
operations with exactly one fragment is accepted. -/
def visitDocument (t : Typer) (doc : QueryDocument) : (String × Option String) × Typer :=
  match doc.operations with
  | [] =>
    match doc.fragments with
    | [] => (("", some "no definitions"), t)
    | [f] =>
      let r := visitFragmentDefinition t f
      ((r.1, none), r.2)
    | fs => (("", some ("expected at most one fragment definition, found " ++ toString fs.length)), t)
  | [op] =>
    let t := doc.fragments.foldl (fun t f => (visitFragmentDefinition t f).2) t
    let r := visitOperationDefinition t op
    ((r.1, none), r.2)
  | ops => (("", some ("expected at most one operation definition, found " ++ toString ops.length)), t)

/-- ignoreError: unused-variable diagnostics are suppressed. -/
def ignoreError (err : String) : Bool :=
  hasSuffixStr err "is never used."

/-- filterErrors: stable in-place filter dropping ignored diagnostics. -/
def filterErrors (errs : List String) : List String :=
  errs.filter (fun e => !ignoreError e)

/-- loadQuery: parse then validate, keeping only non-ignored diagnostics.
The parser and validator are external collaborators (gqlparser); they are
passed in as pure functions, which is what the spec requires of them. -/
def loadQuery (parseQuery : String → Except String QueryDocument)
    (validate : Schema → QueryDocument → List String)
    (t : Typer) (gql : String) : Except String QueryDocument :=
  match parseQuery gql with
  | .error e => .error e
  | .ok doc =>
    let errs := filterErrors (validate t.schema doc)
    if errs.length > 0 then .error (String.intercalate "\n" errs) else .ok doc

/-- VisitString: load, visit, and on success append the query-to-type entry;
on any failure return the empty string and the error. -/
def VisitString (parseQuery : String → Except String QueryDocument)
    (validate : Schema → QueryDocument → List String)
    (t : Typer) (gql : String) : (String × Option String) × Typer :=
  match loadQuery parseQuery validate t gql with
  | .error e => (("", some ("loading query: " ++ e)), t)
  | .ok doc =>
    let r := visitDocument t doc
    match r.1.2 with
    | some e => (("", some e), r.2)
    | none =>
      let typ := r.1.1
      let t := r.2
      ((typ, none),
        { t with generated :=
            { t.generated with queryMap := t.generated.queryMap ++ [{ query := gql, type := typ }] } })

/-! Concrete fixtures: the schema with a single type Query carrying a
non-null String field hello, the parsed document of the input with one hello
selection, and variants used to settle the concrete claims. -/

def queryDef : Definition :=
  { name := "Query", kind := .object, interfaces := [], types := [] }

def helloSchema : Schema :=
  { types := [("Query", queryDef)], query := some queryDef
    mutation := none, subscription := none }

def stringBangType : AstType := AstType.mk "String" none true

def helloField : Selection := Selection.field "" "hello" [] stringBangType OptSelections.noSel

def helloSelections : Selections := Selections.cons helloField Selections.nil

def helloDoc : QueryDocument :=
  { operations :=
      [{ operation := "query", name := "", variableDefinitions := []
         selectionSet := helloSelections }]
    fragments := [] }

/-- A document mixing one operation with one fragment definition. -/
def mixedDoc : QueryDocument :=
  { operations := helloDoc.operations
    fragments :=
      [{ name := "F", typeCondition := "Query", selectionSet := helloSelections }] }

def freshTyper (s : Schema) : Typer :=
  { schema := s, generated := { scalars := [], queryMap := [], declarations := [] }
    builder := nilBuilder, vars := [] }

def helloTyper : Typer := freshTyper helloSchema

/-- Modelled from the spec: the external gqlparser parse step, specified at
the boundary only, instantiated for the single input of the concrete
scenario; every other input is a parse failure. -/
def parseHello (s : String) : Except String QueryDocument :=
  if s = "\x7b hello \x7d" then .ok helloDoc else .error "parse error"

/-- A validator reporting no diagnostics (the concrete scenario documents are
valid). -/
def validateNone (_ : Schema) (_ : QueryDocument) : List String := []

/-- The GraphQL type [Int!] as an ast.Type value: nullable list of non-null
Int. -/
def listIntBang : AstType := AstType.mk "" (some (AstType.mk "Int" none true)) false

/-- The GraphQL type [Int!]! : non-null list of non-null Int. -/
def listIntBangBang : AstType := AstType.mk "" (some (AstType.mk "Int" none true)) true

def defA : Definition := { name := "A", kind := .object, interfaces := [], types := [] }

def defB : Definition := { name := "B", kind := .object, interfaces := [], types := [] }

def defC : Definition := { name := "C", kind := .object, interfaces := [], types := [] }

def unionAB : TypeUnion := newTypeUnion [defA, defB]

def unionBC : TypeUnion := newTypeUnion [defB, defC]

/-- The member-name list of a union. -/
def memberNames (u : TypeUnion) : List String := u.definitions.map Definition.name

/-- The key set of the alternatives map of the current frame. -/
def altKeys (t : Typer) : List String := keysA t.builder.alternatives

/-- Coverage invariant of a frame: every member of the current self union
has an allocated objectBuilder. -/
@[reducible] def covOK (t : Typer) : Prop :=
  ∀ d ∈ t.builder.self.definitions, containsA t.builder.objects d.name = true

/-- Agreement of two Typer states on everything the computed type text can
depend on: the schema, the current frame and the variable scope. -/
def Agree (t₁ t₂ : Typer) : Prop :=
  t₁.schema = t₂.schema ∧ t₁.builder = t₂.builder ∧ t₁.vars = t₂.vars

/-- What one visitor step preserves inside a frame: the schema, the
query map, the current self union, the key set of the objects map, and
monotonicity of the alternatives key set. -/
def StepOK (t t' : Typer) : Prop :=
  t'.schema = t.schema ∧
  t'.generated.queryMap = t.generated.queryMap ∧
  t'.builder.self = t.builder.self ∧
  keysA t'.builder.objects = keysA t.builder.objects ∧
  ∀ k, k ∈ altKeys t → k ∈ altKeys t'

/-- Transitions that only append to the scalar registry. -/
def OnlyScalars (t t' : Typer) : Prop :=
  t'.schema = t.schema ∧ t'.builder = t.builder ∧ t'.vars = t.vars ∧
  t'.generated.queryMap = t.generated.queryMap

/-- Transitions that touch only the variable scope and the scalar
registry. -/
def VarsScalars (t t' : Typer) : Prop :=
  t'.schema = t.schema ∧ t'.builder = t.builder ∧
  t'.generated.queryMap = t.generated.queryMap

def zeroDoc : QueryDocument := { operations := [], fragments := [] }

/-- The root type of the hello scenario. -/
def helloRootType : String :=
  "\x7b data: \x7b __typename: \"Query\"; hello: string; \x7d; variables: \x7b \x7d; \x7d"

/-- The Typer state after one successful VisitString of the hello input. -/
def helloTyperAfter : Typer :=
  (VisitString parseHello validateNone helloTyper "\x7b hello \x7d").2

def twoOpsDoc : QueryDocument :=
  { operations := helloDoc.operations ++ helloDoc.operations, fragments := [] }

/-! Order-theoretic facts about the sorting comparison, needed to show the
canonical key ignores member order. -/

theorem listCharLe_total : ∀ as bs : List Char, listCharLe as bs = true ∨ listCharLe bs as = true
  | [], _ => Or.inl rfl
  | _ :: _, [] => Or.inr rfl
  | a :: as, b :: bs => by
    rcases Nat.lt_trichotomy a.toNat b.toNat with h | h | h
    · left
      simp [listCharLe, h]
    · rcases listCharLe_total as bs with ih | ih
      · left
        simp [listCharLe, h, ih]
      · right
        simp [listCharLe, h, ih]
    · right
      simp [listCharLe, h]

theorem listCharLe_trans : ∀ as bs cs : List Char,
    listCharLe as bs = true → listCharLe bs cs = true → listCharLe as cs = true
  | [], _, _ => by intro _ _; rfl
  | _ :: _, [], _ => by intro h _; simp [listCharLe] at h
  | _ :: _, _ :: _, [] => by intro _ h; simp [listCharLe] at h
  | a :: as, b :: bs, c :: cs => by
    intro h1 h2
    simp only [listCharLe] at h1 h2 ⊢
    split_ifs at h1 h2 ⊢ <;> try omega
    all_goals try rfl
    all_goals try simp_all
    exact listCharLe_trans as bs cs h1 h2

theorem listCharLe_antisymm : ∀ as bs : List Char,
    listCharLe as bs = true → listCharLe bs as = true → as = bs
  | [], [] => by intro _ _; rfl
  | [], _ :: _ => by intro _ h; simp [listCharLe] at h
  | _ :: _, [] => by intro h _; simp [listCharLe] at h
  | a :: as, b :: bs => by
    intro h1 h2
    simp only [listCharLe] at h1 h2
    split_ifs at h1 h2 <;> try omega
    all_goals try simp_all
    have hn : a.toNat = b.toNat := by omega
    have hc : a = b := Char.eq_of_val_eq (UInt32.ext hn)
    have := listCharLe_antisymm as bs h1 h2
    simp [hc, this]

theorem strLeRel_total (a b : String) : strLeRel a b ∨ strLeRel b a :=
  listCharLe_total a.data b.data

theorem strLeRel_trans (a b c : String) : strLeRel a b → strLeRel b c → strLeRel a c :=
  listCharLe_trans a.data b.data c.data

theorem strLeRel_antisymm (a b : String) : strLeRel a b → strLeRel b a → a = b :=
  fun h1 h2 => String.ext (listCharLe_antisymm a.data b.data h1 h2)

theorem sortStrings_perm (l : List String) : (sortStrings l).Perm l :=
  List.perm_insertionSort strLeRel l

theorem sortStrings_sorted (l : List String) : List.Sorted strLeRel (sortStrings l) :=
  @List.sorted_insertionSort String strLeRel _ ⟨strLeRel_total⟩ ⟨strLeRel_trans⟩ l

theorem sortStrings_eq_of_perm {l₁ l₂ : List String} (h : l₁.Perm l₂) :
    sortStrings l₁ = sortStrings l₂ :=
  @List.eq_of_perm_of_sorted String strLeRel ⟨strLeRel_antisymm⟩ _ _
    (((sortStrings_perm l₁).trans h).trans (sortStrings_perm l₂).symm)
    (sortStrings_sorted l₁) (sortStrings_sorted l₂)

theorem canonicalizeUnion_perm {l₁ l₂ : List String} (h : l₁.Perm l₂) :
    canonicalizeUnion l₁ = canonicalizeUnion l₂ := by
  have hlen := h.length_eq
  unfold canonicalizeUnion
  cases l₁ <;> cases l₂ <;> simp_all
  exact congrArg _ (sortStrings_eq_of_perm h)

theorem mem_memberNames_intersect (a b : TypeUnion) (n : String) :
    n ∈ memberNames (intersectUnions a b) ↔ n ∈ memberNames b ∧ n ∈ memberNames a := by
  simp only [intersectUnions, memberNames, newTypeUnion, List.mem_map, List.mem_filter,
    List.any_eq_true, decide_eq_true_eq]
  constructor
  · rintro ⟨d, ⟨hdb, x, hxa, hx⟩, rfl⟩
    exact ⟨⟨d, hdb, rfl⟩, ⟨x, hxa, hx⟩⟩
  · rintro ⟨⟨d, hdb, rfl⟩, x, hxa, hx⟩
    exact ⟨d, ⟨hdb, x, hxa, hx⟩, rfl⟩

theorem memberNames_intersect_nodup (a b : TypeUnion) (hb : (memberNames b).Nodup) :
    (memberNames (intersectUnions a b)).Nodup := by
  have hsub : (memberNames (intersectUnions a b)).Sublist (memberNames b) := by
    simp only [intersectUnions, memberNames, newTypeUnion]
    exact (List.filter_sublist _).map _
  exact hsub.nodup hb

theorem intersect_canonical_eq (a b : TypeUnion) :
    (intersectUnions a b).canonical =
      canonicalizeUnion ((memberNames (intersectUnions a b)).map StringToJSON) := by
  simp [intersectUnions, newTypeUnion, memberNames, List.map_map]
  rfl

/-- C4: for unions with duplicate-free member names, intersectUnions computes
exactly the name-set intersection, and its canonical key does not depend on
the operand order. -/
theorem intersectUnions_member_names_and_canonical_comm (a b : TypeUnion)
    (ha : (memberNames a).Nodup) (hb : (memberNames b).Nodup) :
    (∀ n, n ∈ memberNames (intersectUnions a b) ↔ n ∈ memberNames a ∧ n ∈ memberNames b) ∧
    (intersectUnions a b).canonical = (intersectUnions b a).canonical := by
  refine ⟨fun n => (mem_memberNames_intersect a b n).trans and_comm, ?_⟩
  have hperm : (memberNames (intersectUnions a b)).Perm (memberNames (intersectUnions b a)) := by
    refine (List.perm_ext_iff_of_nodup (memberNames_intersect_nodup a b hb)
      (memberNames_intersect_nodup b a ha)).2 (fun n => ?_)
    rw [mem_memberNames_intersect, mem_memberNames_intersect]
    exact and_comm
  rw [intersect_canonical_eq a b, intersect_canonical_eq b a]
  exact canonicalizeUnion_perm (hperm.map StringToJSON)

/-- C4 witness at concrete unions. -/
theorem intersectUnions_member_names_and_canonical_comm_witness :
    ((memberNames unionAB).Nodup ∧ (memberNames unionBC).Nodup) ∧
    ("B" ∈ memberNames (intersectUnions unionAB unionBC) ↔
      "B" ∈ memberNames unionAB ∧ "B" ∈ memberNames unionBC) ∧
    (intersectUnions unionAB unionBC).canonical = (intersectUnions unionBC unionAB).canonical :=
  ⟨⟨by decide, by decide⟩,
    (intersectUnions_member_names_and_canonical_comm unionAB unionBC
      (by decide) (by decide)).1 "B",
    (intersectUnions_member_names_and_canonical_comm unionAB unionBC
      (by decide) (by decide)).2⟩

/-- C5 as stated fails on definition lists with repeated names: the lists
[A, A] and [A] have the same member-name set, but their canonical keys
differ, because canonicalization never deduplicates. -/
theorem newTypeUnion_duplicate_names_counterexample :
    ([defA, defA].map Definition.name).toFinset = ([defA].map Definition.name).toFinset ∧
    (newTypeUnion [defA, defA]).canonical ≠ (newTypeUnion [defA]).canonical :=
  ⟨by decide, by decide⟩

/-- C5 amended: the canonical key is the quoted member names sorted and
pipe-joined, the empty list canonicalizes to never, and any two
duplicate-free definition lists with the same member-name set share one
canonical key. -/
theorem newTypeUnion_canonical_key (defs a b : List Definition)
    (ha : (a.map Definition.name).Nodup) (hb : (b.map Definition.name).Nodup)
    (hset : ∀ n, n ∈ a.map Definition.name ↔ n ∈ b.map Definition.name) :
    (newTypeUnion defs).canonical =
      (if defs = [] then "never"
       else String.intercalate " | " (sortStrings (defs.map (fun d => StringToJSON d.name)))) ∧
    (newTypeUnion a).canonical = (newTypeUnion b).canonical := by
  constructor
  · cases defs <;> simp [newTypeUnion, canonicalizeUnion]
  · have hperm := (List.perm_ext_iff_of_nodup ha hb).2 hset
    simp only [newTypeUnion]
    have : ∀ l : List Definition,
        l.map (fun d => StringToJSON d.name) = (l.map Definition.name).map StringToJSON := by
      intro l
      rw [List.map_map]
      rfl
    rw [this a, this b]
    exact canonicalizeUnion_perm (hperm.map StringToJSON)

/-- C5 witness at concrete lists. -/
theorem newTypeUnion_canonical_key_witness :
    (([defA, defB].map Definition.name).Nodup ∧ ([defB, defA].map Definition.name).Nodup ∧
      ("A" ∈ [defA, defB].map Definition.name ↔ "A" ∈ [defB, defA].map Definition.name)) ∧
    (newTypeUnion [defA, defB]).canonical =
      (if ([defA, defB] : List Definition) = [] then "never"
       else String.intercalate " | " (sortStrings ([defA, defB].map (fun d => StringToJSON d.name)))) ∧
    (newTypeUnion [defA, defB]).canonical = (newTypeUnion [defB, defA]).canonical :=
  ⟨⟨by decide, by decide, by decide⟩,
    (newTypeUnion_canonical_key [defA, defB] [defA, defB] [defB, defA]
      (by decide) (by decide) (fun n => by constructor <;> (intro h; simp at h ⊢; tauto))).1,
    (newTypeUnion_canonical_key [defA, defB] [defA, defB] [defB, defA]
      (by decide) (by decide) (fun n => by constructor <;> (intro h; simp at h ⊢; tauto))).2⟩

/-- C6: an anonymous definition yields the inline data and variables
composite with no new declaration; a named one appends exactly the Data
declaration followed by the Variables declaration and returns the composite
referencing those two names. -/
theorem buildDocumentType_anonymous_and_named (t : Typer) (pfx name dataType : String) :
    (name = "" →
      (buildDocumentType t pfx name dataType).1 =
        "\x7b data: " ++ dataType ++ "; variables: " ++ buildVariablesType t ++ "; \x7d" ∧
      ((buildDocumentType t pfx name dataType).2).generated.declarations =
        t.generated.declarations) ∧
    (name ≠ "" →
      (buildDocumentType t pfx name dataType).1 =
        "\x7b data: " ++ (pfx ++ "_" ++ name ++ "_Data") ++ "; variables: " ++
          (pfx ++ "_" ++ name ++ "_Variables") ++ "; \x7d" ∧
      ((buildDocumentType t pfx name dataType).2).generated.declarations =
        t.generated.declarations ++
          ["export type " ++ pfx ++ "_" ++ name ++ "_Data = " ++ dataType ++ ";",
           "export type " ++ pfx ++ "_" ++ name ++ "_Variables = " ++ buildVariablesType t ++ ";"]) := by
  constructor
  · intro h
    simp [buildDocumentType, h]
  · intro h
    simp [buildDocumentType, h]

/-- C6 witness at concrete arguments. -/
theorem buildDocumentType_anonymous_and_named_witness :
    ((buildDocumentType helloTyper "Query" "" "D").1 =
      "\x7b data: D; variables: " ++ buildVariablesType helloTyper ++ "; \x7d" ∧
      ((buildDocumentType helloTyper "Query" "" "D").2).generated.declarations =
        helloTyper.generated.declarations) ∧
    ((buildDocumentType helloTyper "Query" "N" "D").2).generated.declarations =
      helloTyper.generated.declarations ++
        ["export type Query_N_Data = D;",
         "export type Query_N_Variables = " ++ buildVariablesType helloTyper ++ ";"] :=
  ⟨(buildDocumentType_anonymous_and_named helloTyper "Query" "" "D").1 rfl,
    ((buildDocumentType_anonymous_and_named helloTyper "Query" "N" "D").2 (by decide)).2⟩

/-- C2: the code, not the claim, decides these outputs: for the non-null
list of non-null Int the emitted text is "(number" with no array marker and
an unbalanced parenthesis, and for the nullable list of non-null Int it is
"(number | null"; the closing loop only emits ")" and "[]" once a space or
an earlier nullable suffix has set needsParens. -/
theorem visitType_list_of_nonnull_scalar_output :
    (visitType helloTyper listIntBangBang).1 = "(number" ∧
    (visitType helloTyper listIntBang).1 = "(number | null" :=
  ⟨by decide, by decide⟩

/-- C1 as stated fails on the code: a document with exactly one operation
and one fragment definition (a mix) is accepted by visitDocument. -/
theorem visitDocument_mixed_accepted :
    (visitDocument helloTyper mixedDoc).1.2 = none := by decide

/-- C1 amended: visitDocument rejects a document with zero definitions, one
with zero operations and two or more fragments, and one with two or more
operations, naming the actual count and leaving the state untouched; it
accepts every document with exactly one operation, regardless of how many
fragment definitions accompany it, and every document with zero operations
and exactly one fragment. -/
theorem visitDocument_arity (t : Typer) (doc : QueryDocument) :
    (doc.operations = [] → doc.fragments = [] →
      (visitDocument t doc).1 = ("", some "no definitions") ∧ (visitDocument t doc).2 = t) ∧
    (doc.operations = [] → 2 ≤ doc.fragments.length →
      (visitDocument t doc).1 =
        ("", some ("expected at most one fragment definition, found " ++
          toString doc.fragments.length)) ∧
      (visitDocument t doc).2 = t) ∧
    (2 ≤ doc.operations.length →
      (visitDocument t doc).1 =
        ("", some ("expected at most one operation definition, found " ++
          toString doc.operations.length)) ∧
      (visitDocument t doc).2 = t) ∧
    (doc.operations.length = 1 → (visitDocument t doc).1.2 = none) ∧
    (doc.operations = [] → doc.fragments.length = 1 → (visitDocument t doc).1.2 = none) := by
  obtain ⟨ops, frags⟩ := doc
  refine ⟨?_, ?_, ?_, ?_, ?_⟩
  · rintro rfl rfl
    exact ⟨rfl, rfl⟩
  · rintro rfl h
    match frags, h with
    | f1 :: f2 :: fs, _ => exact ⟨rfl, rfl⟩
  · intro h
    match ops, h with
    | o1 :: o2 :: os, _ => exact ⟨rfl, rfl⟩
  · intro h
    match ops, h with
    | [op], _ => rfl
  · rintro rfl h
    match frags, h with
    | [f], _ => rfl

/-- C1 witness at concrete documents. -/
theorem visitDocument_arity_witness :
    (visitDocument helloTyper zeroDoc).1 = ("", some "no definitions") ∧
    ((visitDocument helloTyper twoOpsDoc).1 =
      ("", some "expected at most one operation definition, found 2") ∧
      (visitDocument helloTyper twoOpsDoc).2 = helloTyper) ∧
    (visitDocument helloTyper helloDoc).1.2 = none :=
  ⟨((visitDocument_arity helloTyper zeroDoc).1 rfl rfl).1,
    by
      have h := (visitDocument_arity helloTyper twoOpsDoc).2.2.1 (by decide)
      exact ⟨by rw [h.1]; decide, h.2⟩,
    (visitDocument_arity helloTyper helloDoc).2.2.2.1 (by decide)⟩

/-! Association-list facts. -/

theorem containsA_iff {α : Type} (l : List (String × α)) (k : String) :
    containsA l k = true ↔ k ∈ keysA l := by
  induction l with
  | nil => simp [containsA, lookupA, keysA]
  | cons p rest ih =>
    obtain ⟨k', v⟩ := p
    by_cases h : k' = k
    · subst h
      simp [containsA, lookupA, keysA]
    · simp only [containsA, lookupA, if_neg h, keysA, List.map_cons, List.mem_cons]
      rw [← keysA]
      simp only [containsA] at ih
      rw [ih]
      constructor
      · exact Or.inr
      · rintro (h2 | h2)
        · exact absurd h2.symm h
        · exact h2

theorem mem_keysA_upsertA {α : Type} (l : List (String × α)) (k k' : String) (v : α) :
    k ∈ keysA (upsertA l k' v) ↔ k ∈ keysA l ∨ k = k' := by
  induction l with
  | nil => simp [upsertA, keysA]
  | cons p rest ih =>
    obtain ⟨k₀, v₀⟩ := p
    by_cases h : k₀ = k'
    · subst h
      simp [upsertA, keysA]
      tauto
    · simp only [upsertA, if_neg h, keysA, List.map_cons, List.mem_cons] at *
      rw [← keysA, ← keysA] at *
      rw [ih]
      tauto

theorem keysA_updateA {α : Type} (l : List (String × α)) (k : String) (f : α → α) :
    keysA (updateA l k f) = keysA l := by
  induction l with
  | nil => rfl
  | cons p rest ih =>
    obtain ⟨k₀, v₀⟩ := p
    by_cases h : k₀ = k <;> simp [updateA, h, keysA] at * <;> exact ih

theorem keysA_foldl_updateA (f : Definition → ObjectBuilder → ObjectBuilder) :
    ∀ (defs : List Definition) (objects : List (String × ObjectBuilder)),
      keysA (defs.foldl (fun os d => updateA os d.name (f d)) objects) = keysA objects
  | [], _ => rfl
  | d :: ds, objects => by
    rw [List.foldl_cons, keysA_foldl_updateA f ds, keysA_updateA]

theorem keysA_markFields (objects : List (String × ObjectBuilder)) (defs : List Definition)
    (a : String) : keysA (markFields objects defs a) = keysA objects :=
  keysA_foldl_updateA (fun _ ob => { ob with fields := insertSet ob.fields a }) defs objects

theorem keysA_markFragments (objects : List (String × ObjectBuilder)) (defs : List Definition)
    (a : String) : keysA (markFragments objects defs a) = keysA objects :=
  keysA_foldl_updateA (fun _ ob => { ob with fragments := insertSet ob.fragments a }) defs objects

/-! StepOK machinery. -/

theorem stepOK_refl (t : Typer) : StepOK t t :=
  ⟨rfl, rfl, rfl, rfl, fun _ h => h⟩

theorem stepOK_trans {a b c : Typer} (h1 : StepOK a b) (h2 : StepOK b c) : StepOK a c := by
  obtain ⟨s1, q1, e1, o1, m1⟩ := h1
  obtain ⟨s2, q2, e2, o2, m2⟩ := h2
  exact ⟨s2.trans s1, q2.trans q1, e2.trans e1, o2.trans o1, fun k hk => m2 k (m1 k hk)⟩

theorem onlyScalars_stepOK {t t' : Typer} (h : OnlyScalars t t') : StepOK t t' := by
  obtain ⟨hs, hb, _, hq⟩ := h
  exact ⟨hs, hq, by rw [hb], by rw [hb], fun k hk => by
    unfold altKeys at *
    rw [hb]
    exact hk⟩

theorem varsScalars_stepOK {t t' : Typer} (h : VarsScalars t t') : StepOK t t' := by
  obtain ⟨hs, hb, hq⟩ := h
  exact ⟨hs, hq, by rw [hb], by rw [hb], fun k hk => by
    unfold altKeys at *
    rw [hb]
    exact hk⟩

theorem varsScalars_trans {a b c : Typer} (h1 : VarsScalars a b) (h2 : VarsScalars b c) :
    VarsScalars a c :=
  ⟨h2.1.trans h1.1, h2.2.1.trans h1.2.1, h2.2.2.trans h1.2.2⟩

/-! Projection facts for the frame primitives, all definitional. -/

theorem narrow_fst (t : Typer) (target : Option Definition) :
    (narrow t target).1 = t.builder.self := rfl

theorem narrow_schema (t : Typer) (target : Option Definition) :
    (narrow t target).2.schema = t.schema := rfl

theorem narrow_generated (t : Typer) (target : Option Definition) :
    (narrow t target).2.generated = t.generated := rfl

theorem narrow_vars (t : Typer) (target : Option Definition) :
    (narrow t target).2.vars = t.vars := rfl

theorem narrow_objects (t : Typer) (target : Option Definition) :
    (narrow t target).2.builder.objects = t.builder.objects := rfl

theorem narrow_fields (t : Typer) (target : Option Definition) :
    (narrow t target).2.builder.fields = t.builder.fields := rfl

theorem narrow_self (t : Typer) (target : Option Definition) :
    (narrow t target).2.builder.self =
      intersectUnions t.builder.self (toConcreteUnion t target) := rfl

theorem narrow_alternatives (t : Typer) (target : Option Definition) :
    (narrow t target).2.builder.alternatives =
      upsertA t.builder.alternatives
        (intersectUnions t.builder.self (toConcreteUnion t target)).canonical
        (intersectUnions t.builder.self (toConcreteUnion t target)) := rfl

theorem widen_schema (t : Typer) (old : TypeUnion) : (widen t old).schema = t.schema := rfl

theorem widen_generated (t : Typer) (old : TypeUnion) :
    (widen t old).generated = t.generated := rfl

theorem widen_vars (t : Typer) (old : TypeUnion) : (widen t old).vars = t.vars := rfl

theorem widen_self (t : Typer) (old : TypeUnion) : (widen t old).builder.self = old := rfl

theorem widen_objects (t : Typer) (old : TypeUnion) :
    (widen t old).builder.objects = t.builder.objects := rfl

theorem widen_alternatives (t : Typer) (old : TypeUnion) :
    (widen t old).builder.alternatives = t.builder.alternatives := rfl

theorem startObject_fst (t : Typer) (typ : Option Definition) :
    (startObject t typ).1 = t.builder := rfl

theorem startObject_schema (t : Typer) (typ : Option Definition) :
    (startObject t typ).2.schema = t.schema := rfl

theorem startObject_generated (t : Typer) (typ : Option Definition) :
    (startObject t typ).2.generated = t.generated := rfl

theorem startObject_vars (t : Typer) (typ : Option Definition) :
    (startObject t typ).2.vars = t.vars := rfl

/-! Preservation by the leaf visitors. -/

theorem visitType_onlyScalars (t : Typer) (ty : AstType) :
    OnlyScalars t (visitType t ty).2 := by
  unfold visitType
  dsimp only
  split_ifs <;> exact ⟨rfl, rfl, rfl, rfl⟩

theorem visitType_val (t₁ t₂ : Typer) (ty : AstType) :
    (visitType t₁ ty).1 = (visitType t₂ ty).1 := by
  unfold visitType
  dsimp only
  split_ifs <;> rfl

theorem visitVariableDefinition_varsScalars (t : Typer) (vd : VariableDefinition) :
    VarsScalars t (visitVariableDefinition t vd) := by
  unfold visitVariableDefinition
  split
  · exact ⟨rfl, rfl, rfl⟩
  · have h := visitType_onlyScalars t vd.type
    exact ⟨h.1, h.2.1, h.2.2.2⟩

theorem visitVariableDefinitions_varsScalars (t : Typer) (vars : List VariableDefinition) :
    VarsScalars t (visitVariableDefinitions t vars) := by
  induction vars generalizing t with
  | nil => exact ⟨rfl, rfl, rfl⟩
  | cons v vs ih =>
    exact varsScalars_trans (visitVariableDefinition_varsScalars t v)
      (ih (visitVariableDefinition t v))

theorem visitValue_varsScalars (t : Typer) (v : Value) :
    VarsScalars t (visitValue t v) := by
  cases v with
  | varVal vd => exact visitVariableDefinition_varsScalars t vd
  | constVal => exact ⟨rfl, rfl, rfl⟩

theorem visitArgument_varsScalars (t : Typer) (arg : Argument) :
    VarsScalars t (visitArgument t arg) :=
  visitValue_varsScalars t arg.value

theorem visitArgumentList_varsScalars (t : Typer) (args : List Argument) :
    VarsScalars t (visitArgumentList t args) := by
  induction args generalizing t with
  | nil => exact ⟨rfl, rfl, rfl⟩
  | cons a rest ih =>
    exact varsScalars_trans (visitArgument_varsScalars t a) (ih (visitArgument t a))

/-! StepOK for the selection visitors: helper lemmas taking the inner
recursive fact as a hypothesis, then the mutual theorems. -/

theorem fragmentSpread_body_stepOK (t : Typer) (name tc : String) (ss : Selections)
    (hin : StepOK (narrow t (getDefinition t tc)).2
        (visitSelectionSet (narrow t (getDefinition t tc)).2 ss)) :
    StepOK t (visitFragmentSpread t name tc ss) := by
  obtain ⟨hs, hq, _, ho, hm⟩ := hin
  unfold visitFragmentSpread
  dsimp only
  by_cases h : name = ""
  · rw [if_pos h]
    refine ⟨?_, ?_, ?_, ?_, ?_⟩
    · rw [widen_schema, hs, narrow_schema]
    · rw [widen_generated, hq, narrow_generated]
    · rw [widen_self, narrow_fst]
    · rw [widen_objects, ho, narrow_objects]
    · intro k hk
      unfold altKeys at hk ⊢
      rw [widen_alternatives]
      have h1 : k ∈ keysA (narrow t (getDefinition t tc)).2.builder.alternatives := by
        rw [narrow_alternatives]
        exact (mem_keysA_upsertA _ _ _ _).2 (Or.inl hk)
      exact hm k h1
  · rw [if_neg h]
    refine ⟨rfl, rfl, rfl, ?_, ?_⟩
    · exact keysA_markFragments t.builder.objects
        (intersectUnions t.builder.self (toConcreteUnion t (getDefinition t tc))).definitions
        name
    · intro k hk
      exact (mem_keysA_upsertA t.builder.alternatives k
        (intersectUnions t.builder.self (toConcreteUnion t (getDefinition t tc))).canonical
        (intersectUnions t.builder.self (toConcreteUnion t (getDefinition t tc)))).2 (Or.inl hk)

theorem inlineFragment_body_stepOK (t : Typer) (tc : String) (ss : Selections)
    (hin : StepOK (narrow t (getDefinition t tc)).2
        (visitSelectionSet (narrow t (getDefinition t tc)).2 ss)) :
    StepOK t (visitInlineFragment t tc ss) := by
  obtain ⟨hs, hq, _, ho, hm⟩ := hin
  unfold visitInlineFragment
  dsimp only
  refine ⟨?_, ?_, ?_, ?_, ?_⟩
  · rw [widen_schema, hs, narrow_schema]
  · rw [widen_generated, hq, narrow_generated]
  · rw [widen_self, narrow_fst]
  · rw [widen_objects, ho, narrow_objects]
  · intro k hk
    unfold altKeys at hk ⊢
    rw [widen_alternatives]
    refine hm k ?_
    show k ∈ keysA (narrow t (getDefinition t tc)).2.builder.alternatives
    rw [narrow_alternatives]
    exact (mem_keysA_upsertA _ _ _ _).2 (Or.inl hk)

theorem visitField_noSel_stepOK (t : Typer) (a n : String) (args : List Argument)
    (dt : AstType) : StepOK t (visitField t a n args dt OptSelections.noSel) := by
  have hargs := visitArgumentList_varsScalars t args
  have hty := visitType_onlyScalars (visitArgumentList t args) dt
  rw [visitField]
  refine ⟨?_, ?_, ?_, ?_, ?_⟩
  · show (visitType (visitArgumentList t args) dt).2.schema = t.schema
    rw [hty.1, hargs.1]
  · show (visitType (visitArgumentList t args) dt).2.generated.queryMap =
      t.generated.queryMap
    rw [hty.2.2.2, hargs.2.2]
  · show (visitType (visitArgumentList t args) dt).2.builder.self = t.builder.self
    rw [hty.2.1, hargs.2.1]
  · show keysA (markFields (visitType (visitArgumentList t args) dt).2.builder.objects
      (visitType (visitArgumentList t args) dt).2.builder.self.definitions
      (if a = "" then n else a)) = keysA t.builder.objects
    rw [keysA_markFields, hty.2.1, hargs.2.1]
  · intro k hk
    unfold altKeys at hk ⊢
    show k ∈ keysA (visitType (visitArgumentList t args) dt).2.builder.alternatives
    rw [hty.2.1, hargs.2.1]
    exact hk

theorem visitField_sel_stepOK (t : Typer) (a n : String) (args : List Argument)
    (dt : AstType) (sels : Selections)
    (hin : StepOK
        (startObject (visitArgumentList t args)
          (getDefinition (visitArgumentList t args) (beginType dt).1)).2
        (visitSelectionSet
          (startObject (visitArgumentList t args)
            (getDefinition (visitArgumentList t args) (beginType dt).1)).2 sels)) :
    StepOK t (visitField t a n args dt (OptSelections.sel sels)) := by
  have hargs := visitArgumentList_varsScalars t args
  obtain ⟨hs, hq, _, _, _⟩ := hin
  rw [visitField]
  refine ⟨?_, ?_, ?_, ?_, ?_⟩
  · show (visitSelectionSet _ sels).schema = t.schema
    rw [hs, startObject_schema, hargs.1]
  · show (visitSelectionSet _ sels).generated.queryMap = t.generated.queryMap
    rw [hq]
    show (startObject _ _).2.generated.queryMap = _
    rw [startObject_generated, hargs.2.2]
  · show (visitArgumentList t args).builder.self = t.builder.self
    rw [hargs.2.1]
  · show keysA (markFields (visitArgumentList t args).builder.objects
      (visitArgumentList t args).builder.self.definitions
      (if a = "" then n else a)) = keysA t.builder.objects
    rw [keysA_markFields, hargs.2.1]
  · intro k hk
    unfold altKeys at hk ⊢
    show k ∈ keysA (visitArgumentList t args).builder.alternatives
    rw [hargs.2.1]
    exact hk

mutual

theorem visitSelectionSet_stepOK (t : Typer) (selections : Selections) :
    StepOK t (visitSelectionSet t selections) := by
  cases selections with
  | nil => exact stepOK_refl t
  | cons s rest =>
    rw [visitSelectionSet]
    exact stepOK_trans (visitSelection_stepOK t s)
      (visitSelectionSet_stepOK (visitSelection t s) rest)

theorem visitSelection_stepOK (t : Typer) (node : Selection) :
    StepOK t (visitSelection t node) := by
  cases node with
  | field a n args dt ss =>
    rw [visitSelection]
    exact visitField_stepOK t a n args dt ss
  | fragmentSpread name tc ss =>
    show StepOK t (visitFragmentSpread t name tc ss)
    exact fragmentSpread_body_stepOK t name tc ss (visitSelectionSet_stepOK _ ss)
  | inlineFragment tc ss =>
    show StepOK t (visitInlineFragment t tc ss)
    exact inlineFragment_body_stepOK t tc ss (visitSelectionSet_stepOK _ ss)

theorem visitField_stepOK (t : Typer) (a n : String) (args : List Argument)
    (dt : AstType) (ss : OptSelections) :
    StepOK t (visitField t a n args dt ss) := by
  cases ss with
  | noSel => exact visitField_noSel_stepOK t a n args dt
  | sel sels =>
    exact visitField_sel_stepOK t a n args dt sels (visitSelectionSet_stepOK _ sels)

end

theorem visitFragmentSpread_stepOK (t : Typer) (name tc : String) (ss : Selections) :
    StepOK t (visitFragmentSpread t name tc ss) :=
  fragmentSpread_body_stepOK t name tc ss (visitSelectionSet_stepOK _ ss)

theorem visitInlineFragment_stepOK (t : Typer) (tc : String) (ss : Selections) :
    StepOK t (visitInlineFragment t tc ss) :=
  inlineFragment_body_stepOK t tc ss (visitSelectionSet_stepOK _ ss)

/-- C8: against the schema with only type Query carrying hello of non-null
String, VisitString on the hello input returns exactly the expected root
type, appends exactly one query-map entry, and leaves the declaration list
and the scalar registry empty. -/
theorem VisitString_hello_scenario :
    (VisitString parseHello validateNone helloTyper "\x7b hello \x7d").1 =
      ("\x7b data: \x7b __typename: \"Query\"; hello: string; \x7d; variables: \x7b \x7d; \x7d",
        none) ∧
    (VisitString parseHello validateNone helloTyper "\x7b hello \x7d").2.generated =
      { scalars := []
        queryMap := [{ query := "\x7b hello \x7d"
                       type := "\x7b data: \x7b __typename: \"Query\"; hello: string; \x7d; variables: \x7b \x7d; \x7d" }]
        declarations := [] } :=
  ⟨by decide, by decide⟩

/-! Error paths of the document driver. -/

theorem visitDocument_error_state (t : Typer) (doc : QueryDocument) (e : String)
    (h : (visitDocument t doc).1.2 = some e) : (visitDocument t doc).2 = t := by
  obtain ⟨ops, frags⟩ := doc
  match ops, frags with
  | [], [] => rfl
  | [], [f] => simp [visitDocument] at h
  | [], f1 :: f2 :: fs => rfl
  | [op], frags => simp [visitDocument] at h
  | o1 :: o2 :: os, frags => rfl

/-- C9: whenever VisitString reports an error, the returned type text is
empty and the GeneratedTypes output (scalars, query map, declarations) is
exactly what it was before the call. -/
theorem VisitString_error_no_mutation
    (parseQuery : String → Except String QueryDocument)
    (validate : Schema → QueryDocument → List String)
    (t : Typer) (gql : String) (e : String)
    (h : (VisitString parseQuery validate t gql).1.2 = some e) :
    (VisitString parseQuery validate t gql).1.1 = "" ∧
    (VisitString parseQuery validate t gql).2.generated = t.generated := by
  unfold VisitString at h ⊢
  cases hl : loadQuery parseQuery validate t gql with
  | error e2 => exact ⟨rfl, rfl⟩
  | ok doc =>
    rw [hl] at h
    dsimp only at h ⊢
    cases hv : (visitDocument t doc).1.2 with
    | none =>
      rw [hv] at h
      simp at h
    | some e2 =>
      exact ⟨rfl, by rw [visitDocument_error_state t doc e2 hv]⟩

/-- C9 witness: a failing parse leaves the fresh Typer untouched. -/
theorem VisitString_error_no_mutation_witness :
    (VisitString parseHello validateNone helloTyper "nope").1.2 =
      some "loading query: parse error" ∧
    (VisitString parseHello validateNone helloTyper "nope").1.1 = "" ∧
    (VisitString parseHello validateNone helloTyper "nope").2.generated =
      helloTyper.generated :=
  ⟨by decide,
    (VisitString_error_no_mutation parseHello validateNone helloTyper "nope"
      "loading query: parse error" (by decide)).1,
    (VisitString_error_no_mutation parseHello validateNone helloTyper "nope"
      "loading query: parse error" (by decide)).2⟩

/-! Alternatives monotonicity through the fragment visitors, including the
key recorded by narrow. -/

theorem visitFragmentSpread_altKeys (t : Typer) (name tc : String) (ss : Selections)
    (k : String) (hk : k ∈ altKeys (narrow t (getDefinition t tc)).2) :
    k ∈ altKeys (visitFragmentSpread t name tc ss) := by
  unfold visitFragmentSpread
  dsimp only
  by_cases h : name = ""
  · rw [if_pos h]
    have hmono := (visitSelectionSet_stepOK (narrow t (getDefinition t tc)).2 ss).2.2.2.2
    unfold altKeys at *
    rw [widen_alternatives]
    exact hmono k hk
  · rw [if_neg h]
    exact hk

theorem visitInlineFragment_altKeys (t : Typer) (tc : String) (ss : Selections)
    (k : String) (hk : k ∈ altKeys (narrow t (getDefinition t tc)).2) :
    k ∈ altKeys (visitInlineFragment t tc ss) := by
  unfold visitInlineFragment
  dsimp only
  have hmono := (visitSelectionSet_stepOK (narrow t (getDefinition t tc)).2 ss).2.2.2.2
  unfold altKeys at *
  rw [widen_alternatives]
  exact hmono k hk

theorem narrow_altKeys_new (t : Typer) (target : Option Definition) :
    (intersectUnions t.builder.self (toConcreteUnion t target)).canonical ∈
      altKeys (narrow t target).2 := by
  unfold altKeys
  rw [narrow_alternatives]
  exact (mem_keysA_upsertA _ _ _ _).2 (Or.inr rfl)

/-- C3: a fragment-spread visit and an inline-fragment visit both restore
self to its value from immediately before the visit, and afterwards the
alternatives map contains every key it contained before plus the canonical
key of the narrowed union intersect(self, target); moreover no selection
visit ever removes a key from the alternatives map. -/
theorem fragment_visits_restore_self_and_grow_alternatives
    (t : Typer) (name tc : String) (ss : Selections) :
    ((visitFragmentSpread t name tc ss).builder.self = t.builder.self ∧
      ∀ k, (k ∈ altKeys t ∨
          k = (intersectUnions t.builder.self (toConcreteUnion t (getDefinition t tc))).canonical) →
        k ∈ altKeys (visitFragmentSpread t name tc ss)) ∧
    ((visitInlineFragment t tc ss).builder.self = t.builder.self ∧
      ∀ k, (k ∈ altKeys t ∨
          k = (intersectUnions t.builder.self (toConcreteUnion t (getDefinition t tc))).canonical) →
        k ∈ altKeys (visitInlineFragment t tc ss)) ∧
    (∀ node : Selection, ∀ k, k ∈ altKeys t → k ∈ altKeys (visitSelection t node)) := by
  refine ⟨⟨(visitFragmentSpread_stepOK t name tc ss).2.2.1, ?_⟩,
    ⟨(visitInlineFragment_stepOK t tc ss).2.2.1, ?_⟩,
    fun node k hk => (visitSelection_stepOK t node).2.2.2.2 k hk⟩
  · rintro k (hk | rfl)
    · exact (visitFragmentSpread_stepOK t name tc ss).2.2.2.2 k hk
    · exact visitFragmentSpread_altKeys t name tc ss _ (narrow_altKeys_new t _)
  · rintro k (hk | rfl)
    · exact (visitInlineFragment_stepOK t tc ss).2.2.2.2 k hk
    · exact visitInlineFragment_altKeys t tc ss _ (narrow_altKeys_new t _)

/-- C3 witness inside a concrete root frame. -/
theorem fragment_visits_restore_self_and_grow_alternatives_witness :
    ((visitFragmentSpread (startObject helloTyper (some queryDef)).2 "F" "Query"
        Selections.nil).builder.self =
      (startObject helloTyper (some queryDef)).2.builder.self ∧
    "\"Query\"" ∈ altKeys (visitFragmentSpread (startObject helloTyper (some queryDef)).2
        "F" "Query" Selections.nil)) ∧
    "\"Query\"" ∈ altKeys (visitInlineFragment (startObject helloTyper (some queryDef)).2
        "Query" Selections.nil) :=
  ⟨⟨(fragment_visits_restore_self_and_grow_alternatives
        (startObject helloTyper (some queryDef)).2 "F" "Query" Selections.nil).1.1,
    (fragment_visits_restore_self_and_grow_alternatives
        (startObject helloTyper (some queryDef)).2 "F" "Query" Selections.nil).1.2
      "\"Query\"" (Or.inl (by decide))⟩,
    (fragment_visits_restore_self_and_grow_alternatives
        (startObject helloTyper (some queryDef)).2 "F" "Query" Selections.nil).2.1.2
      "\"Query\"" (Or.inl (by decide))⟩

/-! Coverage: every member of self always has an allocated objectBuilder. -/

theorem containsA_upsertA_self {α : Type} (l : List (String × α)) (k : String) (v : α) :
    containsA (upsertA l k v) k = true :=
  (containsA_iff _ _).2 ((mem_keysA_upsertA _ _ _ _).2 (Or.inr rfl))

theorem containsA_upsertA_mono {α : Type} (l : List (String × α)) (k k' : String) (v : α)
    (h : containsA l k = true) : containsA (upsertA l k' v) k = true :=
  (containsA_iff _ _).2 ((mem_keysA_upsertA _ _ _ _).2 (Or.inl ((containsA_iff _ _).1 h)))

theorem foldl_upsertA_contains {α : Type} (v : α) :
    ∀ (defs : List Definition) (init : List (String × α)) (k : String),
      (containsA init k = true ∨ ∃ d ∈ defs, d.name = k) →
      containsA (defs.foldl (fun os d => upsertA os d.name v) init) k = true
  | [], init, k => by
    rintro (h | ⟨d, hd, _⟩)
    · exact h
    · simp at hd
  | d :: ds, init, k => by
    rintro (h | ⟨d', hd', rfl⟩)
    · rw [List.foldl_cons]
      exact foldl_upsertA_contains v ds _ k (Or.inl (containsA_upsertA_mono _ _ _ _ h))
    · rw [List.foldl_cons]
      rcases List.mem_cons.1 hd' with rfl | hmem
      · exact foldl_upsertA_contains v ds _ _ (Or.inl (containsA_upsertA_self _ _ _))
      · exact foldl_upsertA_contains v ds _ _ (Or.inr ⟨d', hmem, rfl⟩)

theorem covOK_of_stepOK {t t' : Typer} (h : StepOK t t') (hc : covOK t) : covOK t' := by
  intro d hd
  rw [h.2.2.1] at hd
  have hcd := hc d hd
  rw [containsA_iff] at hcd ⊢
  rw [h.2.2.2.1]
  exact hcd

theorem markFieldsChecked_eq : ∀ (defs : List Definition)
    (objects : List (String × ObjectBuilder)) (aliasName : String),
    (∀ d ∈ defs, containsA objects d.name = true) →
    markFieldsChecked objects defs aliasName = some (markFields objects defs aliasName)
  | [], _, _ => fun _ => rfl
  | d :: ds, objects, aliasName => fun h => by
    have hd := h d (List.mem_cons_self d ds)
    unfold markFieldsChecked markFields at *
    rw [List.foldlM_cons, List.foldl_cons]
    rcases hlk : lookupA objects d.name with _ | ob
    · unfold containsA at hd
      rw [hlk] at hd
      simp at hd
    · show markFieldsChecked _ ds aliasName = some (markFields _ ds aliasName)
      refine markFieldsChecked_eq ds _ aliasName (fun d' hd' => ?_)
      rw [containsA_iff, keysA_updateA]
      exact (containsA_iff _ _).1 (h d' (List.mem_cons_of_mem d hd'))

/-- C10: within a frame the objects map covers every member of self: the
frame allocates a builder for every member of its initial union, narrowing
keeps the member names of self inside the previous member names and
preserves coverage, every selection visit preserves coverage, and under
coverage the field-marking loop only ever looks up allocated builders (its
checked variant never fails). -/
theorem builder_lookups_always_allocated
    (u : TypeUnion) (t : Typer) (target : Option Definition) (node : Selection)
    (objects : List (String × ObjectBuilder)) (defs : List Definition) (aliasName : String) :
    (∀ d ∈ u.definitions, containsA (newAlternativesBuilder u).objects d.name = true) ∧
    ((∀ n, n ∈ memberNames (narrow t target).2.builder.self → n ∈ memberNames t.builder.self) ∧
      (covOK t → covOK (narrow t target).2)) ∧
    (covOK t → covOK (visitSelection t node)) ∧
    ((∀ d ∈ defs, containsA objects d.name = true) →
      markFieldsChecked objects defs aliasName = some (markFields objects defs aliasName)) := by
  refine ⟨?_, ⟨?_, ?_⟩, ?_, markFieldsChecked_eq defs objects aliasName⟩
  · intro d hd
    exact foldl_upsertA_contains _ u.definitions [] d.name (Or.inr ⟨d, hd, rfl⟩)
  · intro n hn
    rw [narrow_self] at hn
    exact ((mem_memberNames_intersect _ _ n).1 hn).2
  · intro hc d hd
    rw [narrow_self] at hd
    have hn : d.name ∈ memberNames t.builder.self :=
      ((mem_memberNames_intersect _ _ d.name).1 (List.mem_map.2 ⟨d, hd, rfl⟩)).2
    obtain ⟨d', hd', hname⟩ := List.mem_map.1 hn
    have := hc d' hd'
    show containsA (narrow t target).2.builder.objects d.name = true
    rw [narrow_objects, ← hname]
    exact this
  · intro hc
    exact covOK_of_stepOK (visitSelection_stepOK t node) hc

/-- C10 witness inside a concrete frame. -/
theorem builder_lookups_always_allocated_witness :
    containsA (newAlternativesBuilder unionAB).objects defA.name = true ∧
    covOK (visitSelection (startObject helloTyper (some queryDef)).2 helloField) ∧
    markFieldsChecked (newAlternativesBuilder unionAB).objects [defA] "x" =
      some (markFields (newAlternativesBuilder unionAB).objects [defA] "x") :=
  ⟨(builder_lookups_always_allocated unionAB helloTyper none helloField [] [] "x").1
      defA (by decide),
    (builder_lookups_always_allocated unionAB (startObject helloTyper (some queryDef)).2
        none helloField [] [] "x").2.2.1 (by decide),
    (builder_lookups_always_allocated unionAB helloTyper none helloField
        (newAlternativesBuilder unionAB).objects [defA] "x").2.2.2
      (fun d hd => by
        rcases List.mem_singleton.1 hd with rfl
        decide)⟩

/-! Determinism: the computed type text depends only on the schema and the
document, never on the accumulated output.  Two states that agree on
schema, frame and variable scope stay in agreement through every visitor
and produce identical text. -/

theorem getDefinition_congr {t₁ t₂ : Typer} (h : t₁.schema = t₂.schema) (n : String) :
    getDefinition t₁ n = getDefinition t₂ n := by
  unfold getDefinition
  rw [h]

theorem toConcreteUnion_congr {t₁ t₂ : Typer} (h : t₁.schema = t₂.schema)
    (dd : Option Definition) : toConcreteUnion t₁ dd = toConcreteUnion t₂ dd := by
  unfold toConcreteUnion getDefinition
  rw [h]

theorem narrow_builder (t : Typer) (target : Option Definition) :
    (narrow t target).2.builder =
      { t.builder with
        self := intersectUnions t.builder.self (toConcreteUnion t target)
        alternatives := upsertA t.builder.alternatives
          (intersectUnions t.builder.self (toConcreteUnion t target)).canonical
          (intersectUnions t.builder.self (toConcreteUnion t target)) } := rfl

theorem narrow_getDef_agree {t₁ t₂ : Typer} (h : Agree t₁ t₂) (tc : String) :
    (narrow t₁ (getDefinition t₁ tc)).1 = (narrow t₂ (getDefinition t₂ tc)).1 ∧
    Agree (narrow t₁ (getDefinition t₁ tc)).2 (narrow t₂ (getDefinition t₂ tc)).2 := by
  obtain ⟨hs, hb, hv⟩ := h
  have hu : toConcreteUnion t₁ (getDefinition t₁ tc) =
      toConcreteUnion t₂ (getDefinition t₂ tc) := by
    rw [getDefinition_congr hs]
    exact toConcreteUnion_congr hs _
  refine ⟨?_, hs, ?_, hv⟩
  · rw [narrow_fst, narrow_fst, hb]
  · rw [narrow_builder, narrow_builder, hb, hu]

theorem buildDataType_congr {t₁ t₂ : Typer} (h : t₁.builder = t₂.builder) :
    buildDataType t₁ = buildDataType t₂ := by
  unfold buildDataType writeObject
  rw [h]

theorem buildVariablesType_congr {t₁ t₂ : Typer} (h : t₁.vars = t₂.vars) :
    buildVariablesType t₁ = buildVariablesType t₂ := by
  unfold buildVariablesType
  rw [h]

theorem agree_of_onlyScalars {t₁ t₂ t₁' t₂' : Typer} (h : Agree t₁ t₂)
    (h1 : OnlyScalars t₁ t₁') (h2 : OnlyScalars t₂ t₂') : Agree t₁' t₂' :=
  ⟨by rw [h1.1, h2.1]; exact h.1, by rw [h1.2.1, h2.2.1]; exact h.2.1,
    by rw [h1.2.2.1, h2.2.2.1]; exact h.2.2⟩

theorem visitType_agree {t₁ t₂ : Typer} (h : Agree t₁ t₂) (ty : AstType) :
    Agree (visitType t₁ ty).2 (visitType t₂ ty).2 :=
  agree_of_onlyScalars h (visitType_onlyScalars t₁ ty) (visitType_onlyScalars t₂ ty)

theorem visitVariableDefinition_agree {t₁ t₂ : Typer} (h : Agree t₁ t₂)
    (vd : VariableDefinition) :
    Agree (visitVariableDefinition t₁ vd) (visitVariableDefinition t₂ vd) := by
  obtain ⟨hs, hb, hv⟩ := h
  unfold visitVariableDefinition
  rw [hv]
  by_cases hc : containsA t₂.vars vd.variableName = true
  · rw [if_pos hc, if_pos hc]
    exact ⟨hs, hb, hv⟩
  · rw [if_neg hc, if_neg hc]
    have h1 := visitType_onlyScalars t₁ vd.type
    have h2 := visitType_onlyScalars t₂ vd.type
    have hval := visitType_val t₁ t₂ vd.type
    refine ⟨?_, ?_, ?_⟩
    · show (visitType t₁ vd.type).2.schema = (visitType t₂ vd.type).2.schema
      rw [h1.1, h2.1]
      exact hs
    · show (visitType t₁ vd.type).2.builder = (visitType t₂ vd.type).2.builder
      rw [h1.2.1, h2.2.1]
      exact hb
    · show upsertA (visitType t₁ vd.type).2.vars vd.variableName (visitType t₁ vd.type).1 =
        upsertA (visitType t₂ vd.type).2.vars vd.variableName (visitType t₂ vd.type).1
      rw [h1.2.2.1, h2.2.2.1, hv, hval]

theorem visitVariableDefinitions_agree {t₁ t₂ : Typer} (h : Agree t₁ t₂)
    (vars : List VariableDefinition) :
    Agree (visitVariableDefinitions t₁ vars) (visitVariableDefinitions t₂ vars) := by
  induction vars generalizing t₁ t₂ with
  | nil => exact h
  | cons v vs ih => exact ih (visitVariableDefinition_agree h v)

theorem visitValue_agree {t₁ t₂ : Typer} (h : Agree t₁ t₂) (v : Value) :
    Agree (visitValue t₁ v) (visitValue t₂ v) := by
  cases v with
  | varVal vd => exact visitVariableDefinition_agree h vd
  | constVal => exact h

theorem visitArgumentList_agree {t₁ t₂ : Typer} (h : Agree t₁ t₂) (args : List Argument) :
    Agree (visitArgumentList t₁ args) (visitArgumentList t₂ args) := by
  induction args generalizing t₁ t₂ with
  | nil => exact h
  | cons a rest ih => exact ih (visitValue_agree h a.value)

theorem fragmentSpread_body_agree {t₁ t₂ : Typer} (name tc : String) (ss : Selections)
    (h : Agree t₁ t₂)
    (hin : Agree (visitSelectionSet (narrow t₁ (getDefinition t₁ tc)).2 ss)
        (visitSelectionSet (narrow t₂ (getDefinition t₂ tc)).2 ss)) :
    Agree (visitFragmentSpread t₁ name tc ss) (visitFragmentSpread t₂ name tc ss) := by
  obtain ⟨hold, hN⟩ := narrow_getDef_agree h tc
  unfold visitFragmentSpread
  dsimp only
  by_cases hc : name = ""
  · rw [if_pos hc, if_pos hc]
    refine ⟨hin.1, ?_, hin.2.2⟩
    show { (visitSelectionSet _ ss).builder with self := (narrow t₁ (getDefinition t₁ tc)).1 } =
      { (visitSelectionSet _ ss).builder with self := (narrow t₂ (getDefinition t₂ tc)).1 }
    rw [hin.2.1, hold]
  · rw [if_neg hc, if_neg hc]
    refine ⟨hN.1, ?_, hN.2.2⟩
    show { (narrow t₁ (getDefinition t₁ tc)).2.builder with
        objects := markFragments (narrow t₁ (getDefinition t₁ tc)).2.builder.objects
          (narrow t₁ (getDefinition t₁ tc)).2.builder.self.definitions name
        self := (narrow t₁ (getDefinition t₁ tc)).1 } =
      { (narrow t₂ (getDefinition t₂ tc)).2.builder with
        objects := markFragments (narrow t₂ (getDefinition t₂ tc)).2.builder.objects
          (narrow t₂ (getDefinition t₂ tc)).2.builder.self.definitions name
        self := (narrow t₂ (getDefinition t₂ tc)).1 }
    rw [hN.2.1, hold]

theorem inlineFragment_body_agree {t₁ t₂ : Typer} (tc : String) (ss : Selections)
    (h : Agree t₁ t₂)
    (hin : Agree (visitSelectionSet (narrow t₁ (getDefinition t₁ tc)).2 ss)
        (visitSelectionSet (narrow t₂ (getDefinition t₂ tc)).2 ss)) :
    Agree (visitInlineFragment t₁ tc ss) (visitInlineFragment t₂ tc ss) := by
  obtain ⟨hold, _⟩ := narrow_getDef_agree h tc
  unfold visitInlineFragment
  dsimp only
  refine ⟨hin.1, ?_, hin.2.2⟩
  show { (visitSelectionSet _ ss).builder with self := (narrow t₁ (getDefinition t₁ tc)).1 } =
    { (visitSelectionSet _ ss).builder with self := (narrow t₂ (getDefinition t₂ tc)).1 }
  rw [hin.2.1, hold]

theorem startObject_getDef_agree {t₁ t₂ : Typer} (h : Agree t₁ t₂) (n : String) :
    (startObject t₁ (getDefinition t₁ n)).1 = (startObject t₂ (getDefinition t₂ n)).1 ∧
    Agree (startObject t₁ (getDefinition t₁ n)).2 (startObject t₂ (getDefinition t₂ n)).2 := by
  obtain ⟨hs, hb, hv⟩ := h
  refine ⟨hb, hs, ?_, hv⟩
  show newAlternativesBuilder (toConcreteUnion t₁ (getDefinition t₁ n)) =
    newAlternativesBuilder (toConcreteUnion t₂ (getDefinition t₂ n))
  rw [getDefinition_congr hs, toConcreteUnion_congr hs]

theorem visitField_noSel_agree {t₁ t₂ : Typer} (a n : String) (args : List Argument)
    (dt : AstType) (h : Agree t₁ t₂) :
    Agree (visitField t₁ a n args dt OptSelections.noSel)
      (visitField t₂ a n args dt OptSelections.noSel) := by
  have hA := visitArgumentList_agree h args
  have hT := visitType_agree hA dt
  have hval := visitType_val (visitArgumentList t₁ args) (visitArgumentList t₂ args) dt
  rw [visitField, visitField]
  dsimp only
  refine ⟨hT.1, ?_, hT.2.2⟩
  dsimp only
  rw [hT.2.1, hval]

theorem visitField_sel_agree {t₁ t₂ : Typer} (a n : String) (args : List Argument)
    (dt : AstType) (sels : Selections) (h : Agree t₁ t₂)
    (hin : Agree
        (visitSelectionSet (startObject (visitArgumentList t₁ args)
          (getDefinition (visitArgumentList t₁ args) (beginType dt).1)).2 sels)
        (visitSelectionSet (startObject (visitArgumentList t₂ args)
          (getDefinition (visitArgumentList t₂ args) (beginType dt).1)).2 sels)) :
    Agree (visitField t₁ a n args dt (OptSelections.sel sels))
      (visitField t₂ a n args dt (OptSelections.sel sels)) := by
  have hA := visitArgumentList_agree h args
  have hSO := startObject_getDef_agree hA (beginType dt).1
  rw [visitField, visitField]
  unfold endObject
  dsimp only
  refine ⟨hin.1, ?_, hin.2.2⟩
  dsimp only
  rw [buildDataType_congr hin.2.1, hSO.1]

mutual

theorem visitSelectionSet_agree {t₁ t₂ : Typer} (h : Agree t₁ t₂) (sels : Selections) :
    Agree (visitSelectionSet t₁ sels) (visitSelectionSet t₂ sels) := by
  cases sels with
  | nil => exact h
  | cons s rest =>
    rw [visitSelectionSet, visitSelectionSet]
    exact visitSelectionSet_agree (visitSelection_agree h s) rest

theorem visitSelection_agree {t₁ t₂ : Typer} (h : Agree t₁ t₂) (node : Selection) :
    Agree (visitSelection t₁ node) (visitSelection t₂ node) := by
  cases node with
  | field a n args dt ss =>
    rw [visitSelection, visitSelection]
    exact visitField_agree h a n args dt ss
  | fragmentSpread name tc ss =>
    show Agree (visitFragmentSpread t₁ name tc ss) (visitFragmentSpread t₂ name tc ss)
    exact fragmentSpread_body_agree name tc ss h
      (visitSelectionSet_agree (narrow_getDef_agree h tc).2 ss)
  | inlineFragment tc ss =>
    show Agree (visitInlineFragment t₁ tc ss) (visitInlineFragment t₂ tc ss)
    exact inlineFragment_body_agree tc ss h
      (visitSelectionSet_agree (narrow_getDef_agree h tc).2 ss)

theorem visitField_agree {t₁ t₂ : Typer} (h : Agree t₁ t₂) (a n : String)
    (args : List Argument) (dt : AstType) (ss : OptSelections) :
    Agree (visitField t₁ a n args dt ss) (visitField t₂ a n args dt ss) := by
  cases ss with
  | noSel => exact visitField_noSel_agree a n args dt h
  | sel sels =>
    exact visitField_sel_agree a n args dt sels h
      (visitSelectionSet_agree
        (startObject_getDef_agree (visitArgumentList_agree h args) (beginType dt).1).2 sels)

end

/-! Value determinism and output preservation at the definition level. -/

theorem endDefinition_val {u₁ u₂ : Typer} (hb : u₁.builder = u₂.builder)
    (hv : u₁.vars = u₂.vars) (saved₁ saved₂ : AlternativesBuilder) (k n : String) :
    (endDefinition u₁ saved₁ k n).1 = (endDefinition u₂ saved₂ k n).1 := by
  have hd := buildDataType_congr hb
  have hvv : buildVariablesType { u₁ with builder := saved₁ } =
      buildVariablesType { u₂ with builder := saved₂ } :=
    buildVariablesType_congr hv
  unfold endDefinition endObject buildDocumentType
  dsimp only
  split_ifs <;> simp [hd, hvv]

theorem buildDocumentType_pres (t : Typer) (k n d : String) :
    (buildDocumentType t k n d).2.schema = t.schema ∧
    (buildDocumentType t k n d).2.generated.queryMap = t.generated.queryMap := by
  unfold buildDocumentType
  dsimp only
  split_ifs <;> exact ⟨rfl, rfl⟩

theorem endDefinition_pres (t : Typer) (saved : AlternativesBuilder) (k n : String) :
    (endDefinition t saved k n).2.schema = t.schema ∧
    (endDefinition t saved k n).2.generated.queryMap = t.generated.queryMap := by
  unfold endDefinition endObject
  dsimp only
  exact buildDocumentType_pres { t with builder := saved } k n (buildDataType t)

theorem runDefinition_pres (t : Typer) (X : Option Definition)
    (vds : List VariableDefinition) (sels : Selections) (k n : String) :
    (endDefinition (visitSelectionSet (visitVariableDefinitions (startDefinition t X).2 vds) sels)
        (startDefinition t X).1 k n).2.schema = t.schema ∧
    (endDefinition (visitSelectionSet (visitVariableDefinitions (startDefinition t X).2 vds) sels)
        (startDefinition t X).1 k n).2.generated.queryMap = t.generated.queryMap := by
  have h1 := visitVariableDefinitions_varsScalars (startDefinition t X).2 vds
  have h2 := visitSelectionSet_stepOK (visitVariableDefinitions (startDefinition t X).2 vds) sels
  have h3 := endDefinition_pres
    (visitSelectionSet (visitVariableDefinitions (startDefinition t X).2 vds) sels)
    (startDefinition t X).1 k n
  constructor
  · rw [h3.1, h2.1, h1.1]
    rfl
  · rw [h3.2, h2.2.1]
    have : (visitVariableDefinitions (startDefinition t X).2 vds).generated.queryMap =
        (startDefinition t X).2.generated.queryMap := h1.2.2
    rw [this]
    rfl

theorem visitOperationDefinition_pres (t : Typer) (od : OperationDefinition) :
    (visitOperationDefinition t od).2.schema = t.schema ∧
    (visitOperationDefinition t od).2.generated.queryMap = t.generated.queryMap := by
  unfold visitOperationDefinition
  dsimp only
  split_ifs <;> exact runDefinition_pres t _ od.variableDefinitions od.selectionSet _ od.name

theorem visitFragmentDefinition_pres (t : Typer) (fd : FragmentDefinition) :
    (visitFragmentDefinition t fd).2.schema = t.schema ∧
    (visitFragmentDefinition t fd).2.generated.queryMap = t.generated.queryMap := by
  unfold visitFragmentDefinition
  dsimp only
  exact runDefinition_pres t (getDefinition t fd.typeCondition) [] fd.selectionSet
    "Fragment" fd.name

theorem foldFrags_pres (fs : List FragmentDefinition) : ∀ t : Typer,
    (fs.foldl (fun t f => (visitFragmentDefinition t f).2) t).schema = t.schema ∧
    (fs.foldl (fun t f => (visitFragmentDefinition t f).2) t).generated.queryMap =
      t.generated.queryMap := by
  induction fs with
  | nil => exact fun t => ⟨rfl, rfl⟩
  | cons f fs ih =>
    intro t
    rw [List.foldl_cons]
    have h1 := visitFragmentDefinition_pres t f
    have h2 := ih (visitFragmentDefinition t f).2
    exact ⟨h2.1.trans h1.1, h2.2.trans h1.2⟩

theorem visitDocument_pres (t : Typer) (doc : QueryDocument) :
    (visitDocument t doc).2.schema = t.schema ∧
    (visitDocument t doc).2.generated.queryMap = t.generated.queryMap := by
  obtain ⟨ops, frags⟩ := doc
  match ops, frags with
  | [], [] => exact ⟨rfl, rfl⟩
  | [], [f] => exact visitFragmentDefinition_pres t f
  | [], f1 :: f2 :: fs => exact ⟨rfl, rfl⟩
  | [op], frags =>
    have h1 := foldFrags_pres frags t
    have h2 := visitOperationDefinition_pres
      (frags.foldl (fun t f => (visitFragmentDefinition t f).2) t) op
    exact ⟨h2.1.trans h1.1, h2.2.trans h1.2⟩
  | o1 :: o2 :: os, frags => exact ⟨rfl, rfl⟩

theorem runDefinition_val {t₁ t₂ : Typer} (hs : t₁.schema = t₂.schema)
    {X₁ X₂ : Option Definition} (hX : X₁ = X₂) (vds : List VariableDefinition)
    (sels : Selections) (k n : String) :
    (endDefinition (visitSelectionSet (visitVariableDefinitions (startDefinition t₁ X₁).2 vds) sels)
        (startDefinition t₁ X₁).1 k n).1 =
    (endDefinition (visitSelectionSet (visitVariableDefinitions (startDefinition t₂ X₂).2 vds) sels)
        (startDefinition t₂ X₂).1 k n).1 := by
  subst hX
  have hA : Agree (startDefinition t₁ X₁).2 (startDefinition t₂ X₁).2 := by
    refine ⟨hs, ?_, rfl⟩
    show newAlternativesBuilder (toConcreteUnion { t₁ with vars := [] } X₁) =
      newAlternativesBuilder (toConcreteUnion { t₂ with vars := [] } X₁)
    rw [toConcreteUnion_congr
      (show Typer.schema { t₁ with vars := [] } = Typer.schema { t₂ with vars := [] } from hs)]
  have hA3 := visitSelectionSet_agree (visitVariableDefinitions_agree hA vds) sels
  exact endDefinition_val hA3.2.1 hA3.2.2 _ _ k n

theorem visitOperationDefinition_val {t₁ t₂ : Typer} (hs : t₁.schema = t₂.schema)
    (od : OperationDefinition) :
    (visitOperationDefinition t₁ od).1 = (visitOperationDefinition t₂ od).1 := by
  unfold visitOperationDefinition
  dsimp only
  split_ifs <;> exact runDefinition_val hs (by simp [hs]) od.variableDefinitions
    od.selectionSet _ od.name

theorem visitFragmentDefinition_val {t₁ t₂ : Typer} (hs : t₁.schema = t₂.schema)
    (fd : FragmentDefinition) :
    (visitFragmentDefinition t₁ fd).1 = (visitFragmentDefinition t₂ fd).1 := by
  unfold visitFragmentDefinition
  dsimp only
  exact runDefinition_val hs (getDefinition_congr hs fd.typeCondition) [] fd.selectionSet
    "Fragment" fd.name

theorem visitDocument_val {t₁ t₂ : Typer} (hs : t₁.schema = t₂.schema) (doc : QueryDocument) :
    (visitDocument t₁ doc).1 = (visitDocument t₂ doc).1 := by
  obtain ⟨ops, frags⟩ := doc
  match ops, frags with
  | [], [] => rfl
  | [], [f] =>
    show ((visitFragmentDefinition t₁ f).1, (none : Option String)) =
      ((visitFragmentDefinition t₂ f).1, none)
    rw [visitFragmentDefinition_val hs f]
  | [], f1 :: f2 :: fs => rfl
  | [op], frags =>
    have hs2 : (frags.foldl (fun t f => (visitFragmentDefinition t f).2) t₁).schema =
        (frags.foldl (fun t f => (visitFragmentDefinition t f).2) t₂).schema := by
      rw [(foldFrags_pres frags t₁).1, (foldFrags_pres frags t₂).1, hs]
    show ((visitOperationDefinition _ op).1, (none : Option String)) =
      ((visitOperationDefinition _ op).1, none)
    rw [visitOperationDefinition_val hs2 op]
  | o1 :: o2 :: os, frags => rfl

theorem loadQuery_congr {t₁ t₂ : Typer} (h : t₁.schema = t₂.schema)
    (parseQuery : String → Except String QueryDocument)
    (validate : Schema → QueryDocument → List String) (gql : String) :
    loadQuery parseQuery validate t₁ gql = loadQuery parseQuery validate t₂ gql := by
  unfold loadQuery
  rw [h]

/-- C7: if VisitString succeeds, feeding the same literal query text to the
resulting Typer again succeeds with the same type text, and the query map
ends with exactly two identical entries appended after the original map. -/
theorem VisitString_idempotent
    (parseQuery : String → Except String QueryDocument)
    (validate : Schema → QueryDocument → List String)
    (t : Typer) (gql typ : String) (t' : Typer)
    (h : VisitString parseQuery validate t gql = ((typ, none), t')) :
    (VisitString parseQuery validate t' gql).1 = (typ, none) ∧
    (VisitString parseQuery validate t' gql).2.generated.queryMap =
      t.generated.queryMap ++
        [{ query := gql, type := typ }, { query := gql, type := typ }] := by
  unfold VisitString at h
  cases hl : loadQuery parseQuery validate t gql with
  | error e =>
    rw [hl] at h
    exact absurd (congrArg (fun p => p.1.2) h) (by simp)
  | ok doc =>
    rw [hl] at h
    dsimp only at h
    cases hv : (visitDocument t doc).1.2 with
    | some e =>
      rw [hv] at h
      exact absurd (congrArg (fun p => p.1.2) h) (by simp)
    | none =>
      rw [hv] at h
      have htyp : (visitDocument t doc).1.1 = typ := congrArg (fun p => p.1.1) h
      have ht' : _ = t' := congrArg Prod.snd h
      have hpres := visitDocument_pres t doc
      have hschema : t'.schema = t.schema := by
        rw [← ht']
        exact hpres.1
      have hqm : t'.generated.queryMap =
          t.generated.queryMap ++ [{ query := gql, type := typ }] := by
        rw [← ht']
        show (visitDocument t doc).2.generated.queryMap ++
          [{ query := gql, type := (visitDocument t doc).1.1 }] = _
        rw [hpres.2, htyp]
      have hval := visitDocument_val hschema doc
      have hv' : (visitDocument t' doc).1.2 = none := by
        rw [hval, hv]
      have htyp' : (visitDocument t' doc).1.1 = typ := by
        rw [hval, htyp]
      unfold VisitString
      rw [loadQuery_congr hschema, hl]
      dsimp only
      rw [hv']
      constructor
      · rw [htyp']
      · show (visitDocument t' doc).2.generated.queryMap ++
          [{ query := gql, type := (visitDocument t' doc).1.1 }] = _
        rw [(visitDocument_pres t' doc).2, htyp', hqm, List.append_assoc]
        rfl

/-- C7 witness on the hello scenario. -/
theorem VisitString_idempotent_witness :
    (VisitString parseHello validateNone helloTyperAfter "\x7b hello \x7d").1 =
      (helloRootType, none) ∧
    (VisitString parseHello validateNone helloTyperAfter "\x7b hello \x7d").2.generated.queryMap =
      helloTyper.generated.queryMap ++
        [{ query := "\x7b hello \x7d", type := helloRootType },
         { query := "\x7b hello \x7d", type := helloRootType }] :=
  VisitString_idempotent parseHello validateNone helloTyper "\x7b hello \x7d"
    helloRootType helloTyperAfter (by decide)

end ExtractGQLTS
